import Mathlib

/-!
# Verification of the photo rotation engine

A shallow embedding of `photo_rotation_scheduler.py` (the Frame-TV repository):
the view-history store, the date cache store, the date resolver, the photo
selector with its exhaustion fallback and cooperative cancellation, the
gallery-emptying pass of the switch/clear workers, the schedule evaluator and
the single-flight/cancellation lifecycle, together with theorems settling the
specification's claims about them.

Modelling conventions:
* A directory is modelled as the list of names of its entries that are plain
  files (`iter_photos` then applies the photo-extension filter).
* Filenames are `String`, timestamps are `Int` (Python float epoch seconds are
  only ever produced, stored and compared; no arithmetic is done on them, so an
  abstract linearly ordered scalar is enough), schedule clock arithmetic is
  exact `ℚ` seconds (Python computes `timedelta(hours=24/switches)` at float,
  then microsecond, resolution; the sub-microsecond rounding plays no role in
  the claims settled here).
* Python exceptions are modelled by `Option`/sum-shaped environment fields:
  a fallible step is an `Option` whose `none` means "raised".
* The process-wide cancellation `threading.Event` is leveled: it is set once
  (by shutdown) and never cleared during an operation.  Each `is_set()` call
  in the source is one numbered checkpoint; the flag is modelled by
  `Option Nat` - `some c` means the shutdown request lands at checkpoint `c`.
* `random.sample(pool, k)` is modelled by an arbitrary sampler function
  constrained by `RandomSampleSpec` (returns `k` elements of the pool).
* `heapq.nlargest`/`heapq.nsmallest` are used through their documented
  contract: equivalent to a full descending/ascending sort followed by `take`.
* Per-file I/O failures (which the workers log and skip) and write failures of
  the two JSON records (logged, state kept in memory) are not modelled: the
  claims below are about the success path plus the explicitly modelled
  exception branches.
-/

namespace FrameTV

/-! ## Directory enumeration (`iter_photos`, lines 290-301) -/

/-- PHOTO_EXTENSIONS, line 19 of the source. -/
def photoExtensions : List String := [".jpg", ".jpeg", ".png", ".gif", ".bmp", ".tiff"]

/-- The extension of a file name as `pathlib.Path.suffix` computes it
(CPython: `i = name.rfind('.')`; the suffix is `name[i:]` when `0 < i <
len(name) - 1`, else `""`): the part of the name from its last dot onwards,
empty when the last dot is the first character, the last character, or
absent. -/
def pathSuffix (name : String) : String :=
  let rev := name.data.reverse
  let pre := rev.takeWhile (fun c => c ≠ '.')
  if pre.length = rev.length then ""
  else if pre.length = 0 then ""
  else if pre.length = rev.length - 1 then ""
  else String.mk ('.' :: pre.reverse)

/-- `str.lower()` on the ASCII extension strings involved: each character
lowercased. -/
def lowerString (s : String) : String := String.mk (s.data.map Char.toLower)

/-- The filter of `iter_photos` (line 298): `file_path.suffix.lower() in PHOTO_EXTENSIONS`. -/
def isPhotoFile (name : String) : Bool :=
  photoExtensions.contains (lowerString (pathSuffix name))

/-- `iter_photos(directory)` (lines 290-301): the files of the directory whose
extension, lowercased, is a recognized photo extension. -/
def iterPhotos (dir : List String) : List String :=
  dir.filter isPhotoFile

/-! ## Date cache entries (`get_photo_date`, lines 72-84) -/

/-- Lookup in the date-cache mapping (`filename in self.date_cache` /
`self.date_cache[filename]`). -/
def cacheLookup (n : String) : List (String × Int) → Option Int
  | [] => none
  | (a, b) :: r => if a = n then some b else cacheLookup n r

/-- Python dict assignment `d[n] = t`: replaces the value in place when the key
is present, appends the binding otherwise. -/
def dictInsert (n : String) (t : Int) : List (String × Int) → List (String × Int)
  | [] => [(n, t)]
  | (a, b) :: r => if a = n then (n, t) :: r else (a, b) :: dictInsert n t r

/-- `get_photo_date` (lines 72-84): return the cached date on a hit; on a miss
compute the date through the resolver, store it and return it.  (The source
also sets `cache_dirty`; the dirty flag belongs to the store model below and
the flag's effect is settled by the date-cache claims.) -/
def getPhotoDate (cache : List (String × Int)) (resolve : String → Int)
    (f : String) : Int × List (String × Int) :=
  match cacheLookup f cache with
  | some d => (d, cache)
  | none => (resolve f, (f, resolve f) :: cache)

/-- The date a scan effectively assigns to file `f` when the cache starts as
`cache`: the cached value if present, else the resolver's value. -/
def dOf (cache : List (String × Int)) (resolve : String → Int) (f : String) : Int :=
  (cacheLookup f cache).getD (resolve f)

/-! ## The order used by the date-ranked selection

`heapq.nlargest`/`nsmallest` rank the pairs `(date, photo)`; Python tuple
comparison is lexicographic, falling back to the path (within one directory:
the filename) on equal dates. -/

/-- Lexicographic comparison of `(timestamp, filename)` pairs: exactly Python's
tuple comparison for the pairs the selection scan yields. -/
def pairLe (a b : Int × String) : Prop :=
  a.1 < b.1 ∨ (a.1 = b.1 ∧ a.2 ≤ b.2)

/-- The reversed comparison, used for the descending (newest-first) sort. -/
def pairGe (a b : Int × String) : Prop := pairLe b a

instance : DecidableRel pairLe := fun a b =>
  inferInstanceAs (Decidable (a.1 < b.1 ∨ (a.1 = b.1 ∧ a.2 ≤ b.2)))

instance : DecidableRel pairGe := fun a b => inferInstanceAs (Decidable (pairLe b a))

instance : IsTotal (Int × String) pairLe where
  total a b := by
    rcases lt_trichotomy a.1 b.1 with h | h | h
    · exact Or.inl (Or.inl h)
    · rcases le_total a.2 b.2 with h2 | h2
      · exact Or.inl (Or.inr ⟨h, h2⟩)
      · exact Or.inr (Or.inr ⟨h.symm, h2⟩)
    · exact Or.inr (Or.inl h)

instance : IsTrans (Int × String) pairLe where
  trans a b c hab hbc := by
    rcases hab with h1 | ⟨h1, h1'⟩ <;> rcases hbc with h2 | ⟨h2, h2'⟩
    · exact Or.inl (h1.trans h2)
    · exact Or.inl (h2 ▸ h1)
    · exact Or.inl (h1 ▸ h2)
    · exact Or.inr ⟨h1.trans h2, h1'.trans h2'⟩

instance : IsAntisymm (Int × String) pairLe where
  antisymm a b hab hba := by
    rcases hab with h1 | ⟨h1, h1'⟩ <;> rcases hba with h2 | ⟨h2, h2'⟩
    · exact absurd (h1.trans h2) (lt_irrefl _)
    · exact absurd h1 (h2 ▸ lt_irrefl _)
    · exact absurd h2 (h1 ▸ lt_irrefl _)
    · exact Prod.ext h1 (le_antisymm h1' h2')

instance : IsTotal (Int × String) pairGe where
  total a b := show pairLe b a ∨ pairLe a b from (IsTotal.total (r := pairLe) a b).symm

instance : IsTrans (Int × String) pairGe where
  trans _ _ _ hab hbc := IsTrans.trans (r := pairLe) _ _ _ hbc hab

instance : IsAntisymm (Int × String) pairGe where
  antisymm _ _ hab hba := IsAntisymm.antisymm (r := pairLe) _ _ hba hab

/-- `heapq.nlargest(n, it)`: by its documented contract, equivalent to sorting
descending and keeping the first `n`. -/
def nlargest (n : ℕ) (l : List (Int × String)) : List (Int × String) :=
  (l.insertionSort pairGe).take n

/-- `heapq.nsmallest(n, it)`: equivalent to sorting ascending and keeping the
first `n`. -/
def nsmallest (n : ℕ) (l : List (Int × String)) : List (Int × String) :=
  (l.insertionSort pairLe).take n

/-! ## Cancellation and the selection scans (`select_photos`, lines 303-371) -/

/-- One `operation_cancelled.is_set()` observation.  The event is leveled: with
`cancelFrom = some c` the shutdown request has landed by checkpoint `c`, so
every check from index `c` on sees the flag set; `none` means no shutdown. -/
def isCancelled : Option ℕ → ℕ → Bool
  | none, _ => false
  | some c, k => decide (c ≤ k)

/-- The `unviewed_photos()` generator (lines 307-313) as consumed whole by
`list(...)` in Random mode: per directory entry, one cancellation check (an
early `return` on a set flag), then the view-history filter.  Returns the
produced list and the next checkpoint index. -/
def listUnviewed (cf : Option ℕ) (viewed : Finset String) :
    List String → ℕ → List String × ℕ
  | [], k => ([], k)
  | f :: rest, k =>
    if isCancelled cf k then ([], k + 1)
    else
      let out := listUnviewed cf viewed rest (k + 1)
      (if f ∈ viewed then out.1 else f :: out.1, out.2)

/-- Result of one dated scanning pass: the `(date, photo)` pairs produced, the
cache after the pass, and the next checkpoint index. -/
structure ScanOut where
  pairs : List (Int × String)
  cache : List (String × Int)
  next : ℕ

/-- The `photo_with_date_gen()` generator (lines 329-337) fused with the
`unviewed_photos()` generator it drains: per directory entry, the inner
cancellation check, the view-history filter, then (for a photo that passed the
filter) the outer cancellation check and a cached date resolution.  (The
periodic `save_date_cache()` every 5000 photos only persists the cache and is
settled by the date-cache claims.) -/
def scanPairs (cf : Option ℕ) (resolve : String → Int) (viewed : Finset String) :
    List String → ℕ → List (String × Int) → ScanOut
  | [], k, cache => ⟨[], cache, k⟩
  | f :: rest, k, cache =>
    if isCancelled cf k then ⟨[], cache, k + 1⟩
    else if f ∈ viewed then scanPairs cf resolve viewed rest (k + 1) cache
    else if isCancelled cf (k + 1) then ⟨[], cache, k + 2⟩
    else
      let d := getPhotoDate cache resolve f
      let out := scanPairs cf resolve viewed rest (k + 2) d.2
      ⟨(d.1, f) :: out.pairs, out.cache, out.next⟩

/-- The `all_photos_with_date()` generator of the post-reset rescan
(lines 354-361): one cancellation check per directory entry, no view-history
filter, cached date resolution. -/
def scanAllPairs (cf : Option ℕ) (resolve : String → Int) :
    List String → ℕ → List (String × Int) → ScanOut
  | [], k, cache => ⟨[], cache, k⟩
  | f :: rest, k, cache =>
    if isCancelled cf k then ⟨[], cache, k + 1⟩
    else
      let d := getPhotoDate cache resolve f
      let out := scanAllPairs cf resolve rest (k + 1) d.2
      ⟨(d.1, f) :: out.pairs, out.cache, out.next⟩

/-- The contract of `random.sample(pool, k)` for `k ≤ len(pool)`: it returns a
list of `k` elements drawn from the pool. -/
def RandomSampleSpec (sample : List String → ℕ → List String) : Prop :=
  ∀ pool k, k ≤ pool.length →
    (sample pool k).length = k ∧ ∀ x ∈ sample pool k, x ∈ pool

/-- The selection modes offered by the mode combobox (line 145). -/
inductive Mode
  | random
  | newest
  | oldest
deriving DecidableEq

/-- `count = max(1, min(count, 10000))`, line 304. -/
def clampCount (count : ℤ) : ℕ := (max 1 (min count 10000)).toNat

/-- The state `select_photos` returns and leaves behind: the selected photos,
the in-memory view history, the persisted view-history record, and the
in-memory date cache. -/
structure SelectOut where
  selected : List String
  viewed : Finset String
  viewedFile : Finset String
  cache : List (String × Int)

/-- The ranked extraction `[photo for _, photo in heapq.nlargest/nsmallest(count, gen)]`
(lines 339-342 and 363-366). -/
def heapSelect (newestOrder : Bool) (c : ℕ) (pairs : List (Int × String)) : List String :=
  if newestOrder then (nlargest c pairs).map Prod.snd
  else (nsmallest c pairs).map Prod.snd

/-- The Newest/Oldest branch of `select_photos` (lines 325-371): scan the
unviewed photos with cached dates, keep the `count` extremes; when fewer than
`count` came out, clear the view history, persist the cleared set, rescan the
whole directory and rank again. -/
def datedSelect (cf : Option ℕ) (resolve : String → Int) (files : List String)
    (viewed viewedFile : Finset String) (cache : List (String × Int))
    (c : ℕ) (newestOrder : Bool) : SelectOut :=
  let out1 := scanPairs cf resolve viewed files 0 cache
  let selected := heapSelect newestOrder c out1.pairs
  if selected.length < c then
    let out2 := scanAllPairs cf resolve files out1.next out1.cache
    ⟨heapSelect newestOrder c out2.pairs, ∅, ∅, out2.cache⟩
  else
    ⟨selected, viewed, viewedFile, out1.cache⟩

/-- `select_photos(library_path, count, mode)` (lines 303-371).  In Random mode
(lines 315-323): list the unviewed photos (cancellation-checked); when fewer
than `count` remain, clear the view history, persist the cleared set and
re-enumerate the whole directory (this re-enumeration performs no cancellation
check); sample `min(count, len(pool))` from the chosen pool.  Newest/Oldest is
`datedSelect`. -/
def selectPhotos (cf : Option ℕ) (sample : List String → ℕ → List String)
    (resolve : String → Int) (libraryDir : List String)
    (viewed viewedFile : Finset String) (cache : List (String × Int))
    (count : ℤ) (mode : Mode) : SelectOut :=
  let c := clampCount count
  let files := iterPhotos libraryDir
  match mode with
  | .random =>
    let unviewed := (listUnviewed cf viewed files 0).1
    if unviewed.length < c then
      ⟨sample files (min c files.length), ∅, ∅, cache⟩
    else
      ⟨sample unviewed (min c unviewed.length), viewed, viewedFile, cache⟩
  | .newest => datedSelect cf resolve files viewed viewedFile cache c true
  | .oldest => datedSelect cf resolve files viewed viewedFile cache c false

/-! ## The gallery-emptying pass of the workers
(`_switch_photos_worker` lines 421-440, `_clear_gallery_worker` lines 508-527) -/

/-- The per-photo loop over the gallery: a photo whose name already exists in
the library is unlinked and recorded as a duplicate; otherwise it is renamed
into the library (so later gallery entries see it there).  Returns the library
contents after the pass and the recorded duplicate names, in order. -/
def galleryPass : List String → List String → List String × List String
  | lib, [] => (lib, [])
  | lib, p :: gallery =>
    if p ∈ lib then
      let out := galleryPass lib gallery
      (out.1, p :: out.2)
    else
      galleryPass (lib ++ [p]) gallery

/-- State after the gallery-emptying pass. -/
structure EmptyOut where
  library : List String
  gallery : List String
  viewed : Finset String
  viewedFile : Finset String

/-- The gallery-emptying pass shared (line for line) by the two workers: run
`galleryPass` over the photo files of the gallery, then - when any duplicate
was deleted - discard each duplicate name from the view history and persist it
(lines 435-440 / 522-527).  Non-photo files stay in the gallery untouched. -/
def emptyGalleryPhase (libraryDir galleryDir : List String)
    (viewed viewedFile : Finset String) : EmptyOut :=
  let out := galleryPass libraryDir (iterPhotos galleryDir)
  let viewed2 := out.2.foldl (fun s n => s.erase n) viewed
  ⟨out.1, galleryDir.filter (fun f => ¬ isPhotoFile f),
    viewed2, if out.2.isEmpty then viewedFile else viewed2⟩

/-- The gallery-emptying pass as `_switch_photos_worker` performs it
(lines 418-440), before the selection and repopulation steps. -/
def switchWorkerEmptyPhase (libraryDir galleryDir : List String)
    (viewed viewedFile : Finset String) : EmptyOut :=
  emptyGalleryPhase libraryDir galleryDir viewed viewedFile

/-- The gallery-emptying pass as `_clear_gallery_worker` performs it
(lines 505-527); the clear operation consists of this pass alone. -/
def clearWorkerEmptyPhase (libraryDir galleryDir : List String)
    (viewed viewedFile : Finset String) : EmptyOut :=
  emptyGalleryPhase libraryDir galleryDir viewed viewedFile

/-! ## Schedule evaluator (`get_switch_times`, lines 232-257) -/

/-- Seconds from today's midnight of `now.replace(hour=h, minute=m, second=0,
microsecond=0)` (line 243). -/
def baseSeconds (h m : ℕ) : ℚ := h * 3600 + m * 60

/-- `t.replace(year=today.year, month=today.month, day=today.day)` (line 253)
for a raw datetime `t` seconds after today's midnight: the calendar date is
discarded and the clock time kept, i.e. the time is reduced modulo one day. -/
def normalizeToToday (t : ℚ) : ℚ := t - 86400 * ⌊t / 86400⌋

/-- `get_switch_times` (lines 232-257), with times as exact rational seconds
from today's midnight.  The base time is `none` when `validate_time_format`
rejects the string, `some (h, m)` when it parses as `HH:MM`; the switch count
is `none` when `int(...)` raises (caught by the enclosing handler, line 255).
Counts outside `1..100` return `[]`; one switch returns the base datetime; more
switches are spaced by `timedelta(hours=24/switches)` from the base, normalized
onto today's date and sorted ascending. -/
def getSwitchTimes (base : Option (ℕ × ℕ)) (switches : Option ℤ) : List ℚ :=
  match base with
  | none => []
  | some (h, m) =>
    match switches with
    | none => []
    | some z =>
      if z ≤ 0 ∨ 100 < z then []
      else
        let n := z.toNat
        let mainT := baseSeconds h m
        if n = 1 then [mainT]
        else
          let interval : ℚ := 86400 / n
          let times := (List.range n).map (fun i : ℕ => mainT + interval * (i : ℚ))
          (times.map normalizeToToday).insertionSort (· ≤ ·)

/-! ## Date resolver (`_calculate_photo_date`, lines 86-108) -/

/-- The fields of `os.stat` the resolver consults: `st_birthtime` when the
platform exposes it, else `st_ctime`/`st_mtime`. -/
structure StatInfo where
  birthtime : Option Int
  ctime : Int
  mtime : Int

/-- Everything the environment decides for one `_calculate_photo_date` call.
`exifTags` maps an EXIF tag id to its string value when the tag is present
(with Python truthiness: the empty string counts as absent); `parseExifDate`
is `datetime.strptime(s, '%Y:%m:%d %H:%M:%S').timestamp()`, `none` when it
raises; `statInfo` is `none` when `stat()` raises; `nowTime` is `time.time()`. -/
structure PhotoEnv where
  exifAvailable : Bool
  imageReadRaises : Bool
  exifTags : ℕ → Option String
  parseExifDate : String → Option Int
  statInfo : Option StatInfo
  osIsNT : Bool
  nowTime : Int

/-- The tag loop of lines 94-96: the first of `DateTimeOriginal`, `Digitized`,
`DateTime` (36867, 36868, 306) that is present with a truthy value. -/
def firstExifValue (exifTags : ℕ → Option String) : Option String :=
  (([36867, 36868, 306].filterMap exifTags).filter (fun s => s ≠ "")).head?

/-- The EXIF block, lines 89-98, run under its own handler: an unavailable
PIL, a raising `Image.open`/`getexif`, no truthy tag, and a raising `strptime`
all produce `none` (fall through to the `stat` fallback). -/
def exifBlock (env : PhotoEnv) : Option Int :=
  if env.exifAvailable && !env.imageReadRaises then
    match firstExifValue env.exifTags with
    | some s => env.parseExifDate s
    | none => none
  else none

/-- The filesystem-time choice of lines 100-105: creation time when the
platform exposes one, else change time on Windows, else last-modified time. -/
def statTime (osIsNT : Bool) (info : StatInfo) : Int :=
  match info.birthtime with
  | some b => b
  | none => if osIsNT then info.ctime else info.mtime

/-- `_calculate_photo_date` (lines 86-108): the EXIF block first; then the
`stat` times; a raising `stat()` reaches the outer handler, which returns the
current wall-clock time. -/
def calculatePhotoDate (env : PhotoEnv) : Int :=
  match exifBlock env with
  | some d => d
  | none =>
    match env.statInfo with
    | some info => statTime env.osIsNT info
    | none => env.nowTime

/-! ## Date cache store (`load_date_cache`/`save_date_cache`, lines 53-70,
`reset_history` cache lines 547-549) -/

/-- The persisted `photo_dates.json` record: absent, unreadable/corrupt, or a
stored mapping. -/
inductive CacheFileState
  | missing
  | corrupt
  | stored (entries : List (String × Int))

/-- `load_date_cache` (lines 53-60): the stored mapping, or `{}` when the file
is missing or any step raises (logged, never fatal). -/
def loadDateCache : CacheFileState → List (String × Int)
  | .missing => []
  | .corrupt => []
  | .stored e => e

/-- The in-memory date cache with its dirty flag and its persisted record. -/
structure DateCacheStore where
  entries : List (String × Int)
  dirty : Bool
  file : CacheFileState

/-- The cache write of `get_photo_date` (lines 82-83): store the binding and
mark the cache dirty. -/
def cachePut (st : DateCacheStore) (n : String) (t : Int) : DateCacheStore :=
  { st with entries := dictInsert n t st.entries, dirty := true }

/-- The cache reset of `reset_history` (lines 547-548): empty the mapping and
mark the cache dirty. -/
def cacheClear (st : DateCacheStore) : DateCacheStore :=
  { st with entries := [], dirty := true }

/-- `save_date_cache` (lines 62-70), successful-write path: a no-op when the
cache is not dirty; otherwise write the whole mapping and clear the dirty
flag. -/
def saveDateCache (st : DateCacheStore) : DateCacheStore :=
  if st.dirty then { st with file := .stored st.entries, dirty := false } else st

/-! ## View-history store (`load_viewed_photos`, lines 214-222) -/

/-- A JSON payload as `load_viewed_photos` classifies it: a list (of
filenames), or any non-list value. -/
inductive JsonPayload
  | jlist (items : List String)
  | jother

/-- The persisted `viewed_photos.json` record: absent, unreadable (open or
`json.load` raises), or some JSON payload. -/
inductive ViewedFileState
  | missing
  | unreadable
  | payload (j : JsonPayload)

/-- `load_viewed_photos` (lines 214-222): `set(data)` when the payload is a
list; the empty set when the file is missing, a read/parse step raises
(logged, never fatal), or the payload is not a list. -/
def loadViewedPhotos (fs : ViewedFileState) : Finset String :=
  match fs with
  | .missing => ∅
  | .unreadable => ∅
  | .payload j =>
    match j with
    | .jlist l => l.toFinset
    | .jother => ∅

/-! ## reset_history (lines 537-551) -/

/-- The process state `reset_history` touches: the single-flight lock, the view
history with its record, and the date cache store. -/
structure AppState where
  operationLocked : Bool
  viewed : Finset String
  viewedFile : Finset String
  cacheStore : DateCacheStore

/-- `reset_history` (lines 537-551): rejected (no mutation) while a rotation
holds the lock; otherwise clear the view history and persist it, then clear
the date cache, mark it dirty and flush it immediately. -/
def resetHistory (st : AppState) : AppState :=
  if st.operationLocked then st
  else
    { st with
      viewed := ∅
      viewedFile := ∅
      cacheStore := saveDateCache (cacheClear st.cacheStore) }

/-! ## Single-flight and cancellation lifecycle
(`switch_photos_async` lines 373-404, `clear_gallery_async` lines 472-492,
worker `finally` blocks lines 469-470 and 534-535) -/

/-- The RotationState of the data model: the single-flight busy flag and the
leveled cancellation flag. -/
structure RotSt where
  locked : Bool
  cancelRequested : Bool

/-- How one worker run ends: the body completes, a cancellation checkpoint
returns early, the `except` handler catches an unexpected exception, or (clear
worker only) the gallery-missing early return. -/
inductive WorkerOutcome
  | completed
  | cancelledReturn
  | raised
  | galleryMissing

/-- A worker run as the lifecycle sees it: whatever the outcome - normal end of
the `try` body, an early `return` at a checkpoint, the `except` handler, the
gallery-missing return - control reaches the `finally` block, which releases
the single-flight lock.  `shutdownDuring` records whether a shutdown request
set the cancellation flag while the worker ran. -/
def workerLifecycle (st : RotSt) (outcome : WorkerOutcome) (shutdownDuring : Bool) : RotSt :=
  let stBody : RotSt := { st with cancelRequested := st.cancelRequested || shutdownDuring }
  match outcome with
  | .completed => { stBody with locked := false }
  | .cancelledReturn => { stBody with locked := false }
  | .raised => { stBody with locked := false }
  | .galleryMissing => { stBody with locked := false }

/-- One operation-initiating call as the lifecycle sees it. -/
structure AsyncRun where
  accepted : Bool
  afterClear : RotSt
  final : RotSt

/-- `switch_photos_async` (lines 373-404): non-blocking acquire (immediate
rejection when busy); `operation_cancelled.clear()` on acceptance; explicit
release-and-return on an invalid count, on invalid paths and in the
start-failure handler; otherwise the worker runs and its `finally` releases. -/
def switchPhotosAsync (st : RotSt) (countInputValid pathsValid startRaises : Bool)
    (outcome : WorkerOutcome) (shutdownDuring : Bool) : AsyncRun :=
  if st.locked then ⟨false, st, st⟩
  else
    let st1 : RotSt := { locked := true, cancelRequested := false }
    if !countInputValid then ⟨true, st1, { st1 with locked := false }⟩
    else if !pathsValid then ⟨true, st1, { st1 with locked := false }⟩
    else if startRaises then ⟨true, st1, { st1 with locked := false }⟩
    else ⟨true, st1, workerLifecycle st1 outcome shutdownDuring⟩

/-- `clear_gallery_async` (lines 472-492): as the switch entry point, without
the count validation. -/
def clearGalleryAsync (st : RotSt) (pathsValid startRaises : Bool)
    (outcome : WorkerOutcome) (shutdownDuring : Bool) : AsyncRun :=
  if st.locked then ⟨false, st, st⟩
  else
    let st1 : RotSt := { locked := true, cancelRequested := false }
    if !pathsValid then ⟨true, st1, { st1 with locked := false }⟩
    else if startRaises then ⟨true, st1, { st1 with locked := false }⟩
    else ⟨true, st1, workerLifecycle st1 outcome shutdownDuring⟩

end FrameTV

namespace FrameTV

/-! ## Claim C8: the view-history loader never fails -/

/-- C8: Loading the view-history record never fails: a missing file, an
unreadable/corrupt file, and a payload that is not a list each yield the empty
set rather than an error, and a list payload is reconstructed as the set of
its elements. -/
theorem load_viewed_photos_total :
    loadViewedPhotos .missing = ∅ ∧
    loadViewedPhotos .unreadable = ∅ ∧
    loadViewedPhotos (.payload .jother) = ∅ ∧
    ∀ l, loadViewedPhotos (.payload (.jlist l)) = l.toFinset :=
  ⟨rfl, rfl, rfl, fun _ => rfl⟩

/-! ## Claim C7: date-cache round trips -/

/-- Looking up the key just written by a dict assignment yields the written
value. -/
theorem cacheLookup_dictInsert_self (l : List (String × Int)) (n : String) (t : Int) :
    cacheLookup n (dictInsert n t l) = some t := by
  induction l with
  | nil => simp [dictInsert, cacheLookup]
  | cons a r ih =>
    by_cases h : a.1 = n
    · simp [dictInsert, h, cacheLookup]
    · simp [dictInsert, h, cacheLookup, ih]

/-- C7: The date cache round-trips: a put followed by a get of the same name
returns the stored timestamp; flushing and then loading from the persisted
record reconstructs the same mapping; clearing, flushing and loading yields
the empty mapping; and flush is a no-op when the cache is not dirty. -/
theorem date_cache_round_trip :
    (∀ st n t, cacheLookup n (cachePut st n t).entries = some t) ∧
    (∀ st, st.dirty = true → loadDateCache (saveDateCache st).file = st.entries) ∧
    (∀ st n t, loadDateCache (saveDateCache (cachePut st n t)).file = (cachePut st n t).entries) ∧
    (∀ st, loadDateCache (saveDateCache (cacheClear st)).file = []) ∧
    (∀ st, st.dirty = false → saveDateCache st = st) := by
  refine ⟨fun st n t => cacheLookup_dictInsert_self _ _ _, fun st h => ?_, fun st n t => ?_,
    fun st => ?_, fun st h => ?_⟩
  · simp [saveDateCache, h, loadDateCache]
  · simp [saveDateCache, cachePut, loadDateCache]
  · simp [saveDateCache, cacheClear, loadDateCache]
  · simp [saveDateCache, h]

/-- Witness for C7 at concrete inputs. -/
theorem date_cache_round_trip_witness :
    cacheLookup "a.jpg" (cachePut ⟨[], false, .missing⟩ "a.jpg" 3).entries = some 3 ∧
    loadDateCache (saveDateCache (cachePut ⟨[("b.jpg", 1)], false, .missing⟩ "a.jpg" 3)).file =
      (cachePut ⟨[("b.jpg", 1)], false, .missing⟩ "a.jpg" 3).entries ∧
    loadDateCache (saveDateCache (cacheClear ⟨[("b.jpg", 1)], false, .missing⟩)).file = [] ∧
    saveDateCache ⟨[("b.jpg", 1)], false, .missing⟩ = ⟨[("b.jpg", 1)], false, .missing⟩ :=
  ⟨date_cache_round_trip.1 _ _ _, date_cache_round_trip.2.2.1 _ _ _,
    date_cache_round_trip.2.2.2.1 _, date_cache_round_trip.2.2.2.2 _ rfl⟩

/-! ## Claim C10: reset_history also resets the date cache -/

/-- C10: With no rotation active, `reset_history` clears and persists the
ViewedSet and also the whole date cache: it empties the cache mapping, marks
it dirty and flushes it immediately (so the persisted record becomes the empty
mapping and the flag is clean again). -/
theorem reset_history_resets_date_cache (st : AppState) (h : st.operationLocked = false) :
    (resetHistory st).viewed = ∅ ∧
    (resetHistory st).viewedFile = ∅ ∧
    (resetHistory st).cacheStore.entries = [] ∧
    (resetHistory st).cacheStore.dirty = false ∧
    (resetHistory st).cacheStore.file = CacheFileState.stored [] := by
  simp [resetHistory, h, cacheClear, saveDateCache]

/-- Witness for C10 at a concrete state. -/
theorem reset_history_resets_date_cache_witness :
    (resetHistory ⟨false, {"x.jpg"}, {"x.jpg"}, ⟨[("x.jpg", 5)], false, .missing⟩⟩).viewed = ∅ ∧
    (resetHistory ⟨false, {"x.jpg"}, {"x.jpg"}, ⟨[("x.jpg", 5)], false, .missing⟩⟩).viewedFile = ∅ ∧
    (resetHistory ⟨false, {"x.jpg"}, {"x.jpg"}, ⟨[("x.jpg", 5)], false, .missing⟩⟩).cacheStore.entries = [] ∧
    (resetHistory ⟨false, {"x.jpg"}, {"x.jpg"}, ⟨[("x.jpg", 5)], false, .missing⟩⟩).cacheStore.dirty = false ∧
    (resetHistory ⟨false, {"x.jpg"}, {"x.jpg"}, ⟨[("x.jpg", 5)], false, .missing⟩⟩).cacheStore.file =
      CacheFileState.stored [] :=
  reset_history_resets_date_cache _ rfl

/-! ## Claim C9: single-flight and cancellation lifecycle -/

/-- C9: Once the busy flag is acquired for an accepted switch or clear
operation, it is released on every exit path (successful completion,
configuration rejection, cancellation return, gallery-missing return, and the
unexpected-exception handler), and the cancellation flag is cleared at the
start of each accepted operation. -/
theorem rotation_lifecycle (st : RotSt) (cv pv sr : Bool) (oc : WorkerOutcome) (sd : Bool)
    (hfree : st.locked = false) :
    ((switchPhotosAsync st cv pv sr oc sd).accepted = true ∧
     (switchPhotosAsync st cv pv sr oc sd).afterClear.locked = true ∧
     (switchPhotosAsync st cv pv sr oc sd).afterClear.cancelRequested = false ∧
     (switchPhotosAsync st cv pv sr oc sd).final.locked = false) ∧
    ((clearGalleryAsync st pv sr oc sd).accepted = true ∧
     (clearGalleryAsync st pv sr oc sd).afterClear.locked = true ∧
     (clearGalleryAsync st pv sr oc sd).afterClear.cancelRequested = false ∧
     (clearGalleryAsync st pv sr oc sd).final.locked = false) := by
  cases oc <;> cases cv <;> cases pv <;> cases sr <;>
    simp [switchPhotosAsync, clearGalleryAsync, workerLifecycle, hfree]

/-- Witness for C9: a free lock, an unexpected worker exception, a shutdown
request arriving mid-run. -/
theorem rotation_lifecycle_witness :
    ((switchPhotosAsync ⟨false, true⟩ true true false .raised true).accepted = true ∧
     (switchPhotosAsync ⟨false, true⟩ true true false .raised true).afterClear.locked = true ∧
     (switchPhotosAsync ⟨false, true⟩ true true false .raised true).afterClear.cancelRequested = false ∧
     (switchPhotosAsync ⟨false, true⟩ true true false .raised true).final.locked = false) ∧
    ((clearGalleryAsync ⟨false, true⟩ true false .raised true).accepted = true ∧
     (clearGalleryAsync ⟨false, true⟩ true false .raised true).afterClear.locked = true ∧
     (clearGalleryAsync ⟨false, true⟩ true false .raised true).afterClear.cancelRequested = false ∧
     (clearGalleryAsync ⟨false, true⟩ true false .raised true).final.locked = false) :=
  rotation_lifecycle ⟨false, true⟩ true true false .raised true rfl

/-! ## Claim C6: the date resolver is total with ordered fallbacks -/

/-- C6: The date resolver is total: it always returns a timestamp, preferring
parsed embedded capture metadata, then the filesystem times (creation, or
platform change/modification time), and falling back to the current wall-clock
time when everything raises; the returned value is always one of those
sources. -/
theorem calculate_photo_date_total (env : PhotoEnv) :
    (∀ d, exifBlock env = some d → calculatePhotoDate env = d) ∧
    (∀ info, exifBlock env = none → env.statInfo = some info →
        calculatePhotoDate env = statTime env.osIsNT info) ∧
    (exifBlock env = none → env.statInfo = none → calculatePhotoDate env = env.nowTime) ∧
    ((∃ s, firstExifValue env.exifTags = some s ∧
        env.parseExifDate s = some (calculatePhotoDate env)) ∨
     (∃ info, env.statInfo = some info ∧
        (info.birthtime = some (calculatePhotoDate env) ∨
         calculatePhotoDate env = info.ctime ∨ calculatePhotoDate env = info.mtime)) ∨
     calculatePhotoDate env = env.nowTime) := by
  refine ⟨fun d h => by simp [calculatePhotoDate, h], fun info h h2 => by
    simp [calculatePhotoDate, h, h2], fun h h2 => by simp [calculatePhotoDate, h, h2], ?_⟩
  match hex : exifBlock env with
  | some d =>
    left
    have : calculatePhotoDate env = d := by simp [calculatePhotoDate, hex]
    unfold exifBlock at hex
    split at hex
    · revert hex
      match hfv : firstExifValue env.exifTags with
      | some s => exact fun hex => ⟨s, rfl, by rw [this]; exact hex⟩
      | none => exact fun hex => absurd hex (by simp)
    · exact absurd hex (by simp)
  | none =>
    match hst : env.statInfo with
    | some info =>
      right; left
      refine ⟨info, rfl, ?_⟩
      have : calculatePhotoDate env = statTime env.osIsNT info := by
        simp [calculatePhotoDate, hex, hst]
      rw [this]
      unfold statTime
      match hb : info.birthtime with
      | some b => exact Or.inl (by simp [hb])
      | none => by_cases hnt : env.osIsNT <;> simp [hb, hnt]
    | none =>
      right; right
      simp [calculatePhotoDate, hex, hst]

/-- Witness for C6: the everything-raises environment returns the wall clock. -/
theorem calculate_photo_date_total_witness :
    calculatePhotoDate ⟨true, true, fun _ => none, fun _ => none, none, false, 42⟩ = 42 :=
  (calculate_photo_date_total _).2.2.1 rfl rfl

end FrameTV

namespace FrameTV

/-! ## Claim C4: schedule computation -/

/-- Normalizing a nonnegative time below one day onto today is the identity. -/
theorem normalizeToToday_of_lt (t : ℚ) (h0 : 0 ≤ t) (h1 : t < 86400) :
    normalizeToToday t = t := by
  unfold normalizeToToday
  have hf : ⌊t / 86400⌋ = 0 := by
    rw [Int.floor_eq_zero_iff, Set.mem_Ico]
    constructor
    · positivity
    · rw [div_lt_one (by norm_num)]; exact h1
  simp [hf]

/-- C4: the schedule computation returns the empty sequence whenever the base
time is not valid HH:MM or the switch count is outside 1..100; one switch
yields exactly the base time today; more switches yield switch_count times
spaced evenly by 24/switch_count hours starting at the base time, each
normalized back onto the current calendar date, sorted ascending. -/
theorem get_switch_times_spec (h m : ℕ) :
    (∀ sw, getSwitchTimes none sw = []) ∧
    (getSwitchTimes (some (h, m)) none = []) ∧
    (∀ z : ℤ, z ≤ 0 ∨ 100 < z → getSwitchTimes (some (h, m)) (some z) = []) ∧
    (getSwitchTimes (some (h, m)) (some 1) = [baseSeconds h m]) ∧
    (∀ z : ℤ, 1 < z → z ≤ 100 →
      (getSwitchTimes (some (h, m)) (some z)).length = z.toNat ∧
      List.Sorted (· ≤ ·) (getSwitchTimes (some (h, m)) (some z)) ∧
      List.Perm (getSwitchTimes (some (h, m)) (some z))
        (((List.range z.toNat).map fun i : ℕ =>
          baseSeconds h m + 86400 / (z.toNat : ℚ) * (i : ℚ)).map normalizeToToday) ∧
      (h < 24 → m < 60 → baseSeconds h m ∈ getSwitchTimes (some (h, m)) (some z))) := by
  refine ⟨fun sw => rfl, rfl, fun z hz => ?_, ?_, fun z h1 h2 => ?_⟩
  · simp only [getSwitchTimes, if_pos hz]
  · simp [getSwitchTimes]
  · have hz : ¬(z ≤ 0 ∨ 100 < z) := by omega
    have hn1 : z.toNat ≠ 1 := by omega
    have hL : getSwitchTimes (some (h, m)) (some z)
        = (((List.range z.toNat).map fun i : ℕ =>
            baseSeconds h m + 86400 / (z.toNat : ℚ) * (i : ℚ)).map
              normalizeToToday).insertionSort (· ≤ ·) := by
      simp [getSwitchTimes, hz, hn1]
    have hperm : List.Perm (getSwitchTimes (some (h, m)) (some z))
        (((List.range z.toNat).map fun i : ℕ =>
          baseSeconds h m + 86400 / (z.toNat : ℚ) * (i : ℚ)).map normalizeToToday) := by
      rw [hL]; exact List.perm_insertionSort _ _
    refine ⟨?_, ?_, hperm, fun hh hm => ?_⟩
    · rw [hperm.length_eq]; simp
    · rw [hL]; exact List.sorted_insertionSort _ _
    · have hb0 : (0:ℚ) ≤ baseSeconds h m := by unfold baseSeconds; positivity
      have hb1 : baseSeconds h m < 86400 := by
        have hhq : (h : ℚ) ≤ 23 := by exact_mod_cast Nat.lt_succ_iff.mp hh
        have hmq : (m : ℚ) ≤ 59 := by exact_mod_cast Nat.lt_succ_iff.mp hm
        unfold baseSeconds
        nlinarith
      have hb : normalizeToToday (baseSeconds h m + 86400 / (z.toNat : ℚ) * (0 : ℕ)) =
          baseSeconds h m := by
        rw [show baseSeconds h m + 86400 / (z.toNat : ℚ) * (0 : ℕ) = baseSeconds h m by
          push_cast; ring]
        exact normalizeToToday_of_lt _ hb0 hb1
      rw [hperm.mem_iff]
      refine List.mem_map.mpr ⟨baseSeconds h m + 86400 / (z.toNat : ℚ) * (0 : ℕ),
        List.mem_map.mpr ⟨0, List.mem_range.mpr (by omega), rfl⟩, hb⟩

/-- Witness for C4: base 21:15 with 2 switches yields 09:15 and 21:15 today
(33300 and 76500 seconds), one switch yields the base time, and counts 0 and
101 yield the empty schedule. -/
theorem get_switch_times_spec_witness :
    getSwitchTimes (some (21, 15)) (some 2) = [33300, 76500] ∧
    (getSwitchTimes (some (21, 15)) (some 2)).length = 2 ∧
    List.Sorted (· ≤ ·) (getSwitchTimes (some (21, 15)) (some 2)) ∧
    baseSeconds 21 15 ∈ getSwitchTimes (some (21, 15)) (some 2) ∧
    getSwitchTimes (some (21, 15)) (some 1) = [baseSeconds 21 15] ∧
    getSwitchTimes (some (21, 15)) (some 0) = [] ∧
    getSwitchTimes (some (21, 15)) (some 101) = [] := by
  have h := get_switch_times_spec 21 15
  have h5 := h.2.2.2.2 2 (by norm_num) (by norm_num)
  have heq : getSwitchTimes (some (21, 15)) (some 2) = [33300, 76500] := by
    have h2 : (Int.toNat 2) = 2 := rfl
    have hfl : (⌊(76500 + 86400 / (2:ℚ)) / 86400⌋ : ℤ) = 1 := by
      rw [Int.floor_eq_iff]
      norm_num
    norm_num [getSwitchTimes, baseSeconds, normalizeToToday, List.insertionSort,
      List.orderedInsert, List.range_succ, h2, hfl]
  refine ⟨heq, ?_, h5.2.1, h5.2.2.2 (by norm_num) (by norm_num), h.2.2.2.1,
    h.2.2.1 0 (by norm_num), h.2.2.1 101 (by norm_num)⟩
  have := h5.1
  simpa using this

end FrameTV

namespace FrameTV
/-! ## Claim C2: duplicate reconciliation of the gallery-emptying pass -/

/-- Closed form of the per-photo loop when the gallery holds no duplicate
names: every gallery photo missing from the library is appended to it, every
gallery photo already in the library is recorded as a duplicate. -/
theorem galleryPass_eq (lib g : List String) (hg : g.Nodup) :
    galleryPass lib g =
      (lib ++ g.filter (fun p => ¬ p ∈ lib), g.filter (fun p => p ∈ lib)) := by
  induction g generalizing lib with
  | nil => simp [galleryPass]
  | cons p rest ih =>
    have hrest : rest.Nodup := hg.of_cons
    have hpmem : p ∉ rest := (List.nodup_cons.mp hg).1
    by_cases hp : p ∈ lib
    · have hstep : galleryPass lib (p :: rest) =
          ((galleryPass lib rest).1, p :: (galleryPass lib rest).2) := by
        simp [galleryPass, hp]
      rw [hstep, ih lib hrest]
      rw [List.filter_cons_of_neg (by simpa using hp), List.filter_cons_of_pos (by simpa using hp)]
    · have hstep : galleryPass lib (p :: rest) = galleryPass (lib ++ [p]) rest := by
        simp [galleryPass, hp]
      rw [hstep, ih (lib ++ [p]) hrest]
      refine Prod.ext ?_ ?_
      · dsimp only
        rw [List.filter_cons_of_pos (by simpa using hp), List.append_assoc,
          List.singleton_append]
        refine congrArg (fun X => lib ++ p :: X) (List.filter_congr ?_)
        intro x hx
        have hxp : x ≠ p := fun he => hpmem (he ▸ hx)
        simp [List.mem_append, hxp]
      · dsimp only
        rw [List.filter_cons_of_neg (by simpa using hp)]
        refine List.filter_congr ?_
        intro x hx
        have hxp : x ≠ p := fun he => hpmem (he ▸ hx)
        simp [List.mem_append, hxp]

/-- Discarding each name of a list from a finite set, in order. -/
theorem mem_foldl_erase (dupes : List String) (s : Finset String) (x : String) :
    x ∈ dupes.foldl (fun t n => t.erase n) s ↔ x ∈ s ∧ ¬ x ∈ dupes := by
  induction dupes generalizing s with
  | nil => simp
  | cons d rest ih =>
    simp only [List.foldl_cons, ih, Finset.mem_erase, List.mem_cons]
    constructor
    · rintro ⟨⟨hxd, hxs⟩, hxr⟩
      exact ⟨hxs, fun h => h.elim hxd hxr⟩
    · rintro ⟨hxs, h⟩
      exact ⟨⟨fun he => h (Or.inl he), hxs⟩, fun hr => h (Or.inr hr)⟩

/-- C2: During the gallery-emptying pass of both the switch and the clear
operation, every gallery photo whose name already exists in the library is
deleted from the gallery and its name is removed from the ViewedSet, and every
other gallery photo is moved into the library; a photo-file name present in
both directories therefore ends with exactly one copy, in the library, and is
absent from the ViewedSet.  Both workers perform the identical pass. -/
theorem gallery_duplicate_reconciliation (lib gal : List String)
    (viewed viewedFile : Finset String) (hg : gal.Nodup) :
    (∀ x, x ∈ (switchWorkerEmptyPhase lib gal viewed viewedFile).library ↔
        (x ∈ lib ∨ x ∈ iterPhotos gal)) ∧
    (∀ x, x ∈ (switchWorkerEmptyPhase lib gal viewed viewedFile).viewed ↔
        (x ∈ viewed ∧ ¬ (x ∈ iterPhotos gal ∧ x ∈ lib))) ∧
    (∀ p, p ∈ iterPhotos gal → p ∈ lib →
        p ∈ (switchWorkerEmptyPhase lib gal viewed viewedFile).library ∧
        (lib.Nodup → (switchWorkerEmptyPhase lib gal viewed viewedFile).library.count p = 1) ∧
        ¬ p ∈ (switchWorkerEmptyPhase lib gal viewed viewedFile).gallery ∧
        ¬ p ∈ (switchWorkerEmptyPhase lib gal viewed viewedFile).viewed) ∧
    clearWorkerEmptyPhase lib gal viewed viewedFile =
      switchWorkerEmptyPhase lib gal viewed viewedFile := by
  have hgal : (iterPhotos gal).Nodup := hg.filter _
  have hpass := galleryPass_eq lib (iterPhotos gal) hgal
  have hlibm : ∀ x, x ∈ (switchWorkerEmptyPhase lib gal viewed viewedFile).library ↔
      (x ∈ lib ∨ x ∈ iterPhotos gal) := by
    intro x
    simp only [switchWorkerEmptyPhase, emptyGalleryPhase, hpass, List.mem_append,
      List.mem_filter, decide_eq_true_eq]
    by_cases hxl : x ∈ lib <;> simp [hxl]
  have hdup : ∀ x, x ∈ (galleryPass lib (iterPhotos gal)).2 ↔
      (x ∈ iterPhotos gal ∧ x ∈ lib) := by
    intro x
    rw [hpass]
    simp [List.mem_filter]
  have hviewm : ∀ x, x ∈ (switchWorkerEmptyPhase lib gal viewed viewedFile).viewed ↔
      (x ∈ viewed ∧ ¬ (x ∈ iterPhotos gal ∧ x ∈ lib)) := by
    intro x
    show x ∈ (galleryPass lib (iterPhotos gal)).2.foldl (fun s n => s.erase n) viewed ↔ _
    rw [mem_foldl_erase]
    rw [hdup x]
  refine ⟨hlibm, hviewm, fun p hpg hpl => ⟨(hlibm p).mpr (Or.inl hpl), fun hlib => ?_, ?_, ?_⟩, rfl⟩
  · show ((galleryPass lib (iterPhotos gal)).1).count p = 1
    rw [hpass]
    simp only [List.count_append]
    have h1 : lib.count p = 1 := by
      have hle := List.nodup_iff_count_le_one.mp hlib p
      have hge := List.count_pos_iff.mpr hpl
      omega
    have h2 : ((iterPhotos gal).filter (fun q => ¬ q ∈ lib)).count p = 0 := by
      rw [List.count_eq_zero]
      intro hmem
      have := (List.mem_filter.mp hmem).2
      simp [hpl] at this
    omega
  · show ¬ p ∈ gal.filter (fun f => ¬ isPhotoFile f)
    intro hmem
    have h1 : isPhotoFile p = true := (List.mem_filter.mp hpg).2
    have h2 := (List.mem_filter.mp hmem).2
    simp [h1] at h2
  · rw [hviewm p]
    rintro ⟨_, hn⟩
    exact hn ⟨hpg, hpl⟩

/-- Witness for C2: the same photo name in both directories. -/
theorem gallery_duplicate_reconciliation_witness :
    ("a.jpg" ∈ (switchWorkerEmptyPhase ["a.jpg"] ["a.jpg", "b.jpg"] {"a.jpg"} {"a.jpg"}).library ∧
      ((["a.jpg"] : List String).Nodup →
        (switchWorkerEmptyPhase ["a.jpg"] ["a.jpg", "b.jpg"] {"a.jpg"} {"a.jpg"}).library.count "a.jpg" = 1) ∧
      ¬ "a.jpg" ∈ (switchWorkerEmptyPhase ["a.jpg"] ["a.jpg", "b.jpg"] {"a.jpg"} {"a.jpg"}).gallery ∧
      ¬ "a.jpg" ∈ (switchWorkerEmptyPhase ["a.jpg"] ["a.jpg", "b.jpg"] {"a.jpg"} {"a.jpg"}).viewed) ∧
    clearWorkerEmptyPhase ["a.jpg"] ["a.jpg", "b.jpg"] {"a.jpg"} {"a.jpg"} =
      switchWorkerEmptyPhase ["a.jpg"] ["a.jpg", "b.jpg"] {"a.jpg"} {"a.jpg"} :=
  ⟨(gallery_duplicate_reconciliation ["a.jpg"] ["a.jpg", "b.jpg"] {"a.jpg"} {"a.jpg"}
      (by decide)).2.2.1 "a.jpg" (by decide) (by decide),
    (gallery_duplicate_reconciliation ["a.jpg"] ["a.jpg", "b.jpg"] {"a.jpg"} {"a.jpg"}
      (by decide)).2.2.2⟩

end FrameTV

namespace FrameTV

/-! ## Lemmas about the selection scans -/

/-- clampCount never clamps below one photo. -/
theorem one_le_clampCount (count : ℤ) : 1 ≤ clampCount count := by
  unfold clampCount; omega

/-- clampCount is the identity on counts inside the contract range. -/
theorem clampCount_coe (count : ℕ) (h1 : 1 ≤ count) (h2 : count ≤ 10000) :
    clampCount (count : ℤ) = count := by
  unfold clampCount; omega

/-- With no shutdown request, the unviewed-photos generator produces exactly
the view-history filter of the directory. -/
theorem listUnviewed_none (viewed : Finset String) (files : List String) (k : ℕ) :
    (listUnviewed none viewed files k).1 = files.filter (fun f => ¬ f ∈ viewed) := by
  induction files generalizing k with
  | nil => simp [listUnviewed]
  | cons f rest ih =>
    simp only [listUnviewed, isCancelled, Bool.false_eq_true, if_false, List.filter_cons]
    by_cases hf : f ∈ viewed <;> simp [hf, ih]

/-- Inserting a missing binding does not change any effective date. -/
theorem dOf_insert (cache : List (String × Int)) (resolve : String → Int) (f : String)
    (hmiss : cacheLookup f cache = none) (g : String) :
    dOf ((f, resolve f) :: cache) resolve g = dOf cache resolve g := by
  unfold dOf
  by_cases hfg : f = g
  · subst hfg
    simp [cacheLookup, hmiss]
  · simp [cacheLookup, hfg]

/-- A cached binding survives one `get_photo_date` call. -/
theorem getPhotoDate_cache_mono (cache : List (String × Int)) (resolve : String → Int)
    (f g : String) (v : Int) (h : cacheLookup g cache = some v) :
    cacheLookup g (getPhotoDate cache resolve f).2 = some v := by
  unfold getPhotoDate
  cases hcl : cacheLookup f cache with
  | some d => simpa using h
  | none =>
    by_cases hfg : f = g
    · subst hfg
      rw [h] at hcl
      cases hcl
    · simpa [cacheLookup, hfg] using h

/-- With no shutdown request, the dated scan over the unviewed photos yields
one pair per unviewed photo, dated by the starting cache or the resolver. -/
theorem scanPairs_none (resolve : String → Int) (viewed : Finset String)
    (files : List String) (k : ℕ) (cache : List (String × Int)) :
    (scanPairs none resolve viewed files k cache).pairs =
      (files.filter (fun f => ¬ f ∈ viewed)).map (fun f => (dOf cache resolve f, f)) := by
  induction files generalizing k cache with
  | nil => simp [scanPairs]
  | cons f rest ih =>
    by_cases hf : f ∈ viewed
    · simp [scanPairs, isCancelled, hf, List.filter_cons, ih]
    · cases hcl : cacheLookup f cache with
      | some d =>
        have hgp : getPhotoDate cache resolve f = (d, cache) := by
          simp [getPhotoDate, hcl]
        simp [scanPairs, isCancelled, hf, List.filter_cons, hgp, ih, dOf, hcl]
      | none =>
        have hgp : getPhotoDate cache resolve f = (resolve f, (f, resolve f) :: cache) := by
          simp [getPhotoDate, hcl]
        have hd : ∀ g, (cacheLookup g ((f, resolve f) :: cache)).getD (resolve g) =
            (cacheLookup g cache).getD (resolve g) := by
          intro g
          simpa [dOf] using dOf_insert cache resolve f hcl g
        simp [scanPairs, isCancelled, hf, List.filter_cons, hgp, ih, hd, dOf, hcl]

/-- With no shutdown request, the post-reset scan yields one pair per photo,
dated by the starting cache or the resolver. -/
theorem scanAllPairs_none (resolve : String → Int) (files : List String) (k : ℕ)
    (cache : List (String × Int)) :
    (scanAllPairs none resolve files k cache).pairs =
      files.map (fun f => (dOf cache resolve f, f)) := by
  induction files generalizing k cache with
  | nil => simp [scanAllPairs]
  | cons f rest ih =>
    cases hcl : cacheLookup f cache with
    | some d =>
      have hgp : getPhotoDate cache resolve f = (d, cache) := by
        simp [getPhotoDate, hcl]
      simp [scanAllPairs, isCancelled, hgp, ih, dOf, hcl]
    | none =>
      have hgp : getPhotoDate cache resolve f = (resolve f, (f, resolve f) :: cache) := by
        simp [getPhotoDate, hcl]
      have hd : ∀ g, (cacheLookup g ((f, resolve f) :: cache)).getD (resolve g) =
          (cacheLookup g cache).getD (resolve g) := by
        intro g
        simpa [dOf] using dOf_insert cache resolve f hcl g
      simp [scanAllPairs, isCancelled, hgp, ih, hd, dOf, hcl]

/-- A cached binding survives the unviewed-photos scan. -/
theorem scanPairs_cache_mono (cf : Option ℕ) (resolve : String → Int) (viewed : Finset String)
    (files : List String) (k : ℕ) (cache : List (String × Int)) (g : String) (v : Int)
    (h : cacheLookup g cache = some v) :
    cacheLookup g (scanPairs cf resolve viewed files k cache).cache = some v := by
  induction files generalizing k cache with
  | nil => simpa [scanPairs] using h
  | cons f rest ih =>
    simp only [scanPairs]
    by_cases hc1 : isCancelled cf k = true
    · simpa [hc1] using h
    · by_cases hf : f ∈ viewed
      · simp only [hc1, if_false, if_pos hf]
        exact ih _ _ h
      · by_cases hc2 : isCancelled cf (k + 1) = true
        · simpa [hc1, hf, hc2] using h
        · simp only [hc1, hf, hc2, if_false]
          exact ih _ _ (getPhotoDate_cache_mono cache resolve f g v h)

/-- A cached binding survives the post-reset scan. -/
theorem scanAllPairs_cache_mono (cf : Option ℕ) (resolve : String → Int)
    (files : List String) (k : ℕ) (cache : List (String × Int)) (g : String) (v : Int)
    (h : cacheLookup g cache = some v) :
    cacheLookup g (scanAllPairs cf resolve files k cache).cache = some v := by
  induction files generalizing k cache with
  | nil => simpa [scanAllPairs] using h
  | cons f rest ih =>
    simp only [scanAllPairs]
    by_cases hc1 : isCancelled cf k = true
    · simpa [hc1] using h
    · simp only [hc1, if_false]
      exact ih _ _ (getPhotoDate_cache_mono cache resolve f g v h)

/-- A shutdown request that has already landed at checkpoint 0 stops the
unviewed-photos scan at the first check: no pairs, cache untouched. -/
theorem scanPairs_some_zero (resolve : String → Int) (viewed : Finset String)
    (files : List String) (k : ℕ) (cache : List (String × Int)) :
    (scanPairs (some 0) resolve viewed files k cache).pairs = [] ∧
    (scanPairs (some 0) resolve viewed files k cache).cache = cache := by
  cases files with
  | nil => simp [scanPairs]
  | cons f rest => simp [scanPairs, isCancelled]

/-- A shutdown request that has already landed at checkpoint 0 stops the
post-reset scan at the first check. -/
theorem scanAllPairs_some_zero (resolve : String → Int) (files : List String) (k : ℕ)
    (cache : List (String × Int)) :
    (scanAllPairs (some 0) resolve files k cache).pairs = [] ∧
    (scanAllPairs (some 0) resolve files k cache).cache = cache := by
  cases files with
  | nil => simp [scanAllPairs]
  | cons f rest => simp [scanAllPairs, isCancelled]

/-- A shutdown request that has already landed at checkpoint 0 empties the
unviewed-photos generator. -/
theorem listUnviewed_some_zero (viewed : Finset String) (files : List String) (k : ℕ) :
    (listUnviewed (some 0) viewed files k).1 = [] := by
  cases files with
  | nil => simp [listUnviewed]
  | cons f rest => simp [listUnviewed, isCancelled]

/-! ## Lemmas about the ranked extraction -/

/-- Length of the ranked extraction. -/
theorem heapSelect_length (b : Bool) (c : ℕ) (pairs : List (Int × String)) :
    (heapSelect b c pairs).length = min c pairs.length := by
  cases b <;>
    simp [heapSelect, nlargest, nsmallest, List.length_take, List.length_insertionSort]

/-- An element of a sorted-prefix extraction dominates (in the sort order)
every listed pair left outside the prefix. -/
theorem take_sorted_dominates (r : (Int × String) → (Int × String) → Prop)
    [DecidableRel r] [IsTotal (Int × String) r] [IsTrans (Int × String) r]
    (l : List (Int × String)) (c : ℕ) (p q : Int × String)
    (hp : p ∈ (l.insertionSort r).take c) (hq : q ∈ l)
    (hq2 : ¬ q ∈ (l.insertionSort r).take c) : r p q := by
  have hsort := List.sorted_insertionSort r l
  have hqmem : q ∈ l.insertionSort r := (List.mem_insertionSort r).mpr hq
  have hdrop : q ∈ (l.insertionSort r).drop c := by
    have := (List.take_append_drop c (l.insertionSort r)) ▸ hqmem
    rcases List.mem_append.mp this with h | h
    · exact absurd h hq2
    · exact h
  exact hsort.rel_of_mem_take_of_mem_drop hp hdrop

/-- Core of the top-K property: extracting the first `c` of the pairs of a
directory sorted by a total order keeps elements of the directory, every kept
element dominates every dropped one, and the result does not depend on the
enumeration order of the directory. -/
theorem topk_core (r : (Int × String) → (Int × String) → Prop)
    [DecidableRel r] [IsTotal (Int × String) r] [IsTrans (Int × String) r]
    [IsAntisymm (Int × String) r]
    (U : List String) (ts : String → Int) (c : ℕ) :
    (∀ x ∈ (((U.map fun f => (ts f, f)).insertionSort r).take c).map Prod.snd, x ∈ U) ∧
    (∀ x ∈ (((U.map fun f => (ts f, f)).insertionSort r).take c).map Prod.snd,
      ∀ y ∈ U, ¬ y ∈ (((U.map fun f => (ts f, f)).insertionSort r).take c).map Prod.snd →
        r (ts x, x) (ts y, y)) ∧
    (∀ U2, List.Perm U2 U →
      (((U2.map fun f => (ts f, f)).insertionSort r).take c).map Prod.snd =
        (((U.map fun f => (ts f, f)).insertionSort r).take c).map Prod.snd) := by
  have hpair : ∀ x, x ∈ (((U.map fun f => (ts f, f)).insertionSort r).take c).map Prod.snd →
      x ∈ U ∧ (ts x, x) ∈ ((U.map fun f => (ts f, f)).insertionSort r).take c := by
    intro x hx
    rcases List.mem_map.mp hx with ⟨p, hpmem, hpx⟩
    have hpl : p ∈ (U.map fun f => (ts f, f)) :=
      (List.mem_insertionSort r).mp (List.mem_of_mem_take hpmem)
    rcases List.mem_map.mp hpl with ⟨u, humem, hup⟩
    have hxu : x = u := by rw [← hpx, ← hup]
    subst hxu
    have hpeq : p = (ts x, x) := hup.symm
    exact ⟨humem, hpeq ▸ hpmem⟩
  refine ⟨fun x hx => (hpair x hx).1, fun x hx y hy hyn => ?_, fun U2 hU2 => ?_⟩
  · have hxp := (hpair x hx).2
    have hyq : (ts y, y) ∈ (U.map fun f => (ts f, f)) := List.mem_map.mpr ⟨y, hy, rfl⟩
    have hyt : ¬ (ts y, y) ∈ ((U.map fun f => (ts f, f)).insertionSort r).take c := by
      intro hmem
      exact hyn (List.mem_map.mpr ⟨(ts y, y), hmem, rfl⟩)
    exact take_sorted_dominates r _ c _ _ hxp hyq hyt
  · have hperm : List.Perm (U2.map fun f => (ts f, f)) (U.map fun f => (ts f, f)) :=
      hU2.map _
    have hsorteq : (U2.map fun f => (ts f, f)).insertionSort r =
        (U.map fun f => (ts f, f)).insertionSort r := by
      refine List.eq_of_perm_of_sorted ?_ (List.sorted_insertionSort r _)
        (List.sorted_insertionSort r _)
      exact (List.perm_insertionSort r _).trans (hperm.trans (List.perm_insertionSort r _).symm)
    rw [hsorteq]

end FrameTV

namespace FrameTV

/-- Every photo the ranked extraction returns comes from a scanned pair. -/
theorem mem_heapSelect (b : Bool) (c : ℕ) (pairs : List (Int × String)) (x : String)
    (hx : x ∈ heapSelect b c pairs) : ∃ p ∈ pairs, p.2 = x := by
  cases b with
  | false =>
    simp only [heapSelect, nsmallest, Bool.false_eq_true, if_false] at hx
    rcases List.mem_map.mp hx with ⟨p, hp, hpx⟩
    exact ⟨p, (List.mem_insertionSort _).mp (List.mem_of_mem_take hp), hpx⟩
  | true =>
    simp only [heapSelect, nlargest, if_true] at hx
    rcases List.mem_map.mp hx with ⟨p, hp, hpx⟩
    exact ⟨p, (List.mem_insertionSort _).mp (List.mem_of_mem_take hp), hpx⟩

/-- The Newest/Oldest selection under exhaustion (no shutdown request): fewer
unviewed photos than requested resets and persists the view history and
reselects over the whole directory, returning `min count |directory|`
photos. -/
theorem datedSelect_none_exhaustion (resolve : String → Int) (files : List String)
    (viewed viewedFile : Finset String) (cache : List (String × Int)) (c : ℕ) (b : Bool)
    (hex : (files.filter (fun f => ¬ f ∈ viewed)).length < c) :
    (datedSelect none resolve files viewed viewedFile cache c b).viewed = ∅ ∧
    (datedSelect none resolve files viewed viewedFile cache c b).viewedFile = ∅ ∧
    (datedSelect none resolve files viewed viewedFile cache c b).selected.length =
      min c files.length ∧
    ∀ x ∈ (datedSelect none resolve files viewed viewedFile cache c b).selected,
      x ∈ files := by
  have hp1 := scanPairs_none resolve viewed files 0 cache
  have hcond : (heapSelect b c (scanPairs none resolve viewed files 0 cache).pairs).length < c := by
    rw [heapSelect_length, hp1, List.length_map]
    omega
  have hp2 := scanAllPairs_none resolve files
    (scanPairs none resolve viewed files 0 cache).next
    (scanPairs none resolve viewed files 0 cache).cache
  simp only [datedSelect, if_pos hcond]
  refine ⟨by trivial, by trivial, ?_, ?_⟩
  · rw [heapSelect_length, hp2, List.length_map]
  · intro x hx
    rcases mem_heapSelect _ _ _ _ hx with ⟨p, hpmem, hpx⟩
    rw [hp2] at hpmem
    rcases List.mem_map.mp hpmem with ⟨u, humem, hup⟩
    rw [← hpx, ← hup]
    exact humem

/-- The Newest/Oldest selection with enough unviewed photos (no shutdown
request): the view history and its record are untouched and the result is the
ranked extraction over the unviewed photos, `count` of them, all unviewed. -/
theorem datedSelect_none_enough (resolve : String → Int) (files : List String)
    (viewed viewedFile : Finset String) (cache : List (String × Int)) (c : ℕ) (b : Bool)
    (hge : c ≤ (files.filter (fun f => ¬ f ∈ viewed)).length) :
    (datedSelect none resolve files viewed viewedFile cache c b).viewed = viewed ∧
    (datedSelect none resolve files viewed viewedFile cache c b).viewedFile = viewedFile ∧
    (datedSelect none resolve files viewed viewedFile cache c b).selected.length = c ∧
    (datedSelect none resolve files viewed viewedFile cache c b).selected =
      heapSelect b c ((files.filter (fun f => ¬ f ∈ viewed)).map
        (fun f => (dOf cache resolve f, f))) ∧
    ∀ x ∈ (datedSelect none resolve files viewed viewedFile cache c b).selected,
      x ∈ files ∧ ¬ x ∈ viewed := by
  have hp1 := scanPairs_none resolve viewed files 0 cache
  have hcond : ¬ (heapSelect b c (scanPairs none resolve viewed files 0 cache).pairs).length < c := by
    rw [heapSelect_length, hp1, List.length_map]
    omega
  simp only [datedSelect, if_neg hcond]
  refine ⟨by trivial, by trivial, ?_, by rw [hp1], ?_⟩
  · rw [heapSelect_length, hp1, List.length_map]
    omega
  · intro x hx
    rcases mem_heapSelect _ _ _ _ hx with ⟨p, hpmem, hpx⟩
    rw [hp1] at hpmem
    rcases List.mem_map.mp hpmem with ⟨u, humem, hup⟩
    have hxu : x = u := by rw [← hpx, ← hup]
    subst hxu
    have := List.mem_filter.mp humem
    exact ⟨this.1, by simpa using this.2⟩

/-! ## Claim C1: the exhaustion fallback policy of select_photos -/

/-- C1: For every library directory, contract-range count and selection mode,
the selection clears the ViewedSet and persists the cleared set exactly when
fewer than `count` unviewed photos exist, then redoes the selection over the
unfiltered directory, returning `min count |directory|` photos (fewer than
`count` only if the directory itself holds fewer); with at least `count`
unviewed photos, it returns `count` photos, every returned photo is unviewed,
and the ViewedSet and its record are left unchanged. -/
theorem select_photos_exhaustion_policy (sample : List String → ℕ → List String)
    (resolve : String → Int) (lib : List String) (viewed viewedFile : Finset String)
    (cache : List (String × Int)) (count : ℕ) (mode : Mode)
    (hs : RandomSampleSpec sample) (h1 : 1 ≤ count) (h2 : count ≤ 10000) :
    (((iterPhotos lib).filter (fun f => ¬ f ∈ viewed)).length < count →
      (selectPhotos none sample resolve lib viewed viewedFile cache (count : ℤ) mode).viewed = ∅ ∧
      (selectPhotos none sample resolve lib viewed viewedFile cache (count : ℤ) mode).viewedFile = ∅ ∧
      (selectPhotos none sample resolve lib viewed viewedFile cache (count : ℤ) mode).selected.length =
        min count (iterPhotos lib).length ∧
      ∀ x ∈ (selectPhotos none sample resolve lib viewed viewedFile cache (count : ℤ) mode).selected,
        x ∈ iterPhotos lib) ∧
    (count ≤ ((iterPhotos lib).filter (fun f => ¬ f ∈ viewed)).length →
      (selectPhotos none sample resolve lib viewed viewedFile cache (count : ℤ) mode).viewed = viewed ∧
      (selectPhotos none sample resolve lib viewed viewedFile cache (count : ℤ) mode).viewedFile = viewedFile ∧
      (selectPhotos none sample resolve lib viewed viewedFile cache (count : ℤ) mode).selected.length = count ∧
      ∀ x ∈ (selectPhotos none sample resolve lib viewed viewedFile cache (count : ℤ) mode).selected,
        x ∈ iterPhotos lib ∧ ¬ x ∈ viewed) := by
  have hc := clampCount_coe count h1 h2
  have hL := listUnviewed_none viewed (iterPhotos lib) 0
  cases mode with
  | random =>
    constructor
    · intro hex
      have hcond : ((listUnviewed none viewed (iterPhotos lib) 0).1).length < count := by
        rw [hL]; exact hex
      simp only [selectPhotos, hc]
      rw [if_pos hcond]
      have hspec := hs (iterPhotos lib) (min count (iterPhotos lib).length)
        (Nat.min_le_right _ _)
      exact ⟨rfl, rfl, hspec.1, hspec.2⟩
    · intro hge
      have hcond : ¬ ((listUnviewed none viewed (iterPhotos lib) 0).1).length < count := by
        rw [hL]; omega
      simp only [selectPhotos, hc]
      rw [if_neg hcond]
      have hmin : min count ((listUnviewed none viewed (iterPhotos lib) 0).1).length = count := by
        rw [hL]; exact Nat.min_eq_left hge
      have hspec := hs ((listUnviewed none viewed (iterPhotos lib) 0).1)
        (min count ((listUnviewed none viewed (iterPhotos lib) 0).1).length)
        (Nat.min_le_right _ _)
      refine ⟨rfl, rfl, by rw [hspec.1, hmin], fun x hx => ?_⟩
      have hxu := hspec.2 x hx
      rw [hL] at hxu
      have := List.mem_filter.mp hxu
      exact ⟨this.1, by simpa using this.2⟩
  | newest =>
    constructor
    · intro hex
      have h := datedSelect_none_exhaustion resolve (iterPhotos lib) viewed viewedFile cache
        count true (by exact hex)
      simpa only [selectPhotos, hc] using h
    · intro hge
      have h := datedSelect_none_enough resolve (iterPhotos lib) viewed viewedFile cache
        count true (by exact hge)
      exact ⟨by simpa only [selectPhotos, hc] using h.1, by simpa only [selectPhotos, hc] using h.2.1,
        by simpa only [selectPhotos, hc] using h.2.2.1,
        by simpa only [selectPhotos, hc] using h.2.2.2.2⟩
  | oldest =>
    constructor
    · intro hex
      have h := datedSelect_none_exhaustion resolve (iterPhotos lib) viewed viewedFile cache
        count false (by exact hex)
      simpa only [selectPhotos, hc] using h
    · intro hge
      have h := datedSelect_none_enough resolve (iterPhotos lib) viewed viewedFile cache
        count false (by exact hge)
      exact ⟨by simpa only [selectPhotos, hc] using h.1, by simpa only [selectPhotos, hc] using h.2.1,
        by simpa only [selectPhotos, hc] using h.2.2.1,
        by simpa only [selectPhotos, hc] using h.2.2.2.2⟩

/-- Witness for C1: two unviewed photos, one requested, Random mode (the
enough-unviewed branch), and one photo with count two in Newest mode (the
exhaustion branch). -/
theorem select_photos_exhaustion_policy_witness :
    ((selectPhotos none (fun l n => l.take n) (fun _ => 0) ["a.jpg", "b.jpg"] ∅ ∅ [] (1 : ℤ)
        Mode.random).viewed = ∅ ∧
     (selectPhotos none (fun l n => l.take n) (fun _ => 0) ["a.jpg", "b.jpg"] ∅ ∅ [] (1 : ℤ)
        Mode.random).selected.length = 1) ∧
    ((selectPhotos none (fun l n => l.take n) (fun _ => 0) ["a.jpg"] {"a.jpg"} {"a.jpg"} [] (2 : ℤ)
        Mode.newest).viewed = ∅ ∧
     (selectPhotos none (fun l n => l.take n) (fun _ => 0) ["a.jpg"] {"a.jpg"} {"a.jpg"} [] (2 : ℤ)
        Mode.newest).selected.length = min 2 1) := by
  have hsample : RandomSampleSpec (fun l n => l.take n) := by
    intro pool k hk
    exact ⟨by simpa using Nat.min_eq_left hk, fun x hx => List.mem_of_mem_take hx⟩
  have h1 := select_photos_exhaustion_policy (fun l n => l.take n) (fun _ => 0)
    ["a.jpg", "b.jpg"] ∅ ∅ [] 1 Mode.random hsample (by decide) (by decide)
  have h2 := select_photos_exhaustion_policy (fun l n => l.take n) (fun _ => 0)
    ["a.jpg"] {"a.jpg"} {"a.jpg"} [] 2 Mode.newest hsample (by decide) (by decide)
  have hge : (1 : ℕ) ≤ ((iterPhotos ["a.jpg", "b.jpg"]).filter
      (fun f => ¬ f ∈ (∅ : Finset String))).length := by decide
  have hex : ((iterPhotos ["a.jpg"]).filter
      (fun f => ¬ f ∈ ({"a.jpg"} : Finset String))).length < 2 := by decide
  have hlen : (iterPhotos ["a.jpg"]).length = 1 := by decide
  refine ⟨⟨(h1.2 hge).1, (h1.2 hge).2.2.1⟩, ⟨(h2.1 hex).1, ?_⟩⟩
  have hsel := (h2.1 hex).2.2.1
  rw [hlen] at hsel
  exact hsel

end FrameTV

namespace FrameTV

/-! ## Claim C3: top-K correctness of Newest/Oldest selection -/

/-- The ranked selection with enough unviewed photos: dominance of every
selected photo over every unviewed unselected one (in the direction of the
mode), and independence of the directory's enumeration order. -/
theorem datedSelect_topk (resolve : String → Int) (files files2 : List String)
    (viewed viewedFile : Finset String) (cache : List (String × Int)) (c : ℕ) (b : Bool)
    (hperm : List.Perm files2 files)
    (hcnt : c ≤ (files.filter (fun f => ¬ f ∈ viewed)).length) :
    (∀ x ∈ (datedSelect none resolve files viewed viewedFile cache c b).selected,
       ∀ y, y ∈ files → ¬ y ∈ viewed →
         ¬ y ∈ (datedSelect none resolve files viewed viewedFile cache c b).selected →
         (if b then pairLe (dOf cache resolve y, y) (dOf cache resolve x, x)
          else pairLe (dOf cache resolve x, x) (dOf cache resolve y, y))) ∧
    (datedSelect none resolve files2 viewed viewedFile cache c b).selected =
      (datedSelect none resolve files viewed viewedFile cache c b).selected := by
  have hU2perm : List.Perm (files2.filter (fun f => ¬ f ∈ viewed))
      (files.filter (fun f => ¬ f ∈ viewed)) := hperm.filter _
  have hcnt2 : c ≤ (files2.filter (fun f => ¬ f ∈ viewed)).length := by
    rw [hU2perm.length_eq]; exact hcnt
  have hsel := (datedSelect_none_enough resolve files viewed viewedFile cache c b hcnt).2.2.2.1
  have hsel2 := (datedSelect_none_enough resolve files2 viewed viewedFile cache c b hcnt2).2.2.2.1
  cases b with
  | true =>
    have hform : ∀ pairs, heapSelect true c pairs =
        ((pairs.insertionSort pairGe).take c).map Prod.snd := fun _ => rfl
    have core := topk_core pairGe (files.filter (fun f => ¬ f ∈ viewed))
      (dOf cache resolve) c
    rw [hform] at hsel
    rw [hform] at hsel2
    constructor
    · intro x hx y hyf hyv hyn
      rw [hsel] at hx hyn
      have hdom := core.2.1 x hx y
        (List.mem_filter.mpr ⟨hyf, by simpa using hyv⟩) hyn
      simpa using hdom
    · rw [hsel, hsel2]
      exact core.2.2 _ hU2perm
  | false =>
    have hform : ∀ pairs, heapSelect false c pairs =
        ((pairs.insertionSort pairLe).take c).map Prod.snd := fun _ => rfl
    have core := topk_core pairLe (files.filter (fun f => ¬ f ∈ viewed))
      (dOf cache resolve) c
    rw [hform] at hsel
    rw [hform] at hsel2
    constructor
    · intro x hx y hyf hyv hyn
      rw [hsel] at hx hyn
      have hdom := core.2.1 x hx y
        (List.mem_filter.mpr ⟨hyf, by simpa using hyv⟩) hyn
      simpa using hdom
    · rw [hsel, hsel2]
      exact core.2.2 _ hU2perm

/-- C3: In Newest (resp. Oldest) mode with at least `count` unviewed files,
the selection returns exactly `count` unviewed photos, each selected photo's
`(timestamp, filename)` pair dominates (is dominated by) every unselected
unviewed photo's pair - so the selected set is the true top-`count` (resp.
bottom-`count`) by resolved timestamp with ties broken by filename - and the
result is independent of the order in which the directory is enumerated. -/
theorem dated_selection_topk (resolve : String → Int) (lib lib2 : List String)
    (viewed viewedFile : Finset String) (cache : List (String × Int)) (count : ℕ)
    (h1 : 1 ≤ count) (h2 : count ≤ 10000) (hperm : List.Perm lib2 lib)
    (hcnt : count ≤ ((iterPhotos lib).filter (fun f => ¬ f ∈ viewed)).length) :
    ((selectPhotos none (fun l n => l.take n) resolve lib viewed viewedFile cache
        (count : ℤ) Mode.newest).selected.length = count ∧
     (∀ x ∈ (selectPhotos none (fun l n => l.take n) resolve lib viewed viewedFile cache
        (count : ℤ) Mode.newest).selected, x ∈ iterPhotos lib ∧ ¬ x ∈ viewed) ∧
     (∀ x ∈ (selectPhotos none (fun l n => l.take n) resolve lib viewed viewedFile cache
        (count : ℤ) Mode.newest).selected,
       ∀ y, y ∈ iterPhotos lib → ¬ y ∈ viewed →
         ¬ y ∈ (selectPhotos none (fun l n => l.take n) resolve lib viewed viewedFile cache
            (count : ℤ) Mode.newest).selected →
         pairLe (dOf cache resolve y, y) (dOf cache resolve x, x)) ∧
     (selectPhotos none (fun l n => l.take n) resolve lib2 viewed viewedFile cache
        (count : ℤ) Mode.newest).selected =
       (selectPhotos none (fun l n => l.take n) resolve lib viewed viewedFile cache
        (count : ℤ) Mode.newest).selected) ∧
    ((selectPhotos none (fun l n => l.take n) resolve lib viewed viewedFile cache
        (count : ℤ) Mode.oldest).selected.length = count ∧
     (∀ x ∈ (selectPhotos none (fun l n => l.take n) resolve lib viewed viewedFile cache
        (count : ℤ) Mode.oldest).selected, x ∈ iterPhotos lib ∧ ¬ x ∈ viewed) ∧
     (∀ x ∈ (selectPhotos none (fun l n => l.take n) resolve lib viewed viewedFile cache
        (count : ℤ) Mode.oldest).selected,
       ∀ y, y ∈ iterPhotos lib → ¬ y ∈ viewed →
         ¬ y ∈ (selectPhotos none (fun l n => l.take n) resolve lib viewed viewedFile cache
            (count : ℤ) Mode.oldest).selected →
         pairLe (dOf cache resolve x, x) (dOf cache resolve y, y)) ∧
     (selectPhotos none (fun l n => l.take n) resolve lib2 viewed viewedFile cache
        (count : ℤ) Mode.oldest).selected =
       (selectPhotos none (fun l n => l.take n) resolve lib viewed viewedFile cache
        (count : ℤ) Mode.oldest).selected) := by
  have hc := clampCount_coe count h1 h2
  have hperm2 : List.Perm (iterPhotos lib2) (iterPhotos lib) := hperm.filter _
  have hsameN : ∀ libx, (selectPhotos none (fun l n => l.take n) resolve libx viewed
      viewedFile cache (count : ℤ) Mode.newest) =
      datedSelect none resolve (iterPhotos libx) viewed viewedFile cache count true := by
    intro libx
    simp only [selectPhotos, hc]
  have hsameO : ∀ libx, (selectPhotos none (fun l n => l.take n) resolve libx viewed
      viewedFile cache (count : ℤ) Mode.oldest) =
      datedSelect none resolve (iterPhotos libx) viewed viewedFile cache count false := by
    intro libx
    simp only [selectPhotos, hc]
  constructor
  · have henough := datedSelect_none_enough resolve (iterPhotos lib) viewed viewedFile cache
      count true hcnt
    have htop := datedSelect_topk resolve (iterPhotos lib) (iterPhotos lib2) viewed viewedFile
      cache count true hperm2 hcnt
    rw [hsameN lib, hsameN lib2]
    refine ⟨henough.2.2.1, henough.2.2.2.2, fun x hx y hyf hyv hyn => ?_, htop.2⟩
    have := htop.1 x hx y hyf hyv hyn
    simpa using this
  · have henough := datedSelect_none_enough resolve (iterPhotos lib) viewed viewedFile cache
      count false hcnt
    have htop := datedSelect_topk resolve (iterPhotos lib) (iterPhotos lib2) viewed viewedFile
      cache count false hperm2 hcnt
    rw [hsameO lib, hsameO lib2]
    refine ⟨henough.2.2.1, henough.2.2.2.2, fun x hx y hyf hyv hyn => ?_, htop.2⟩
    have := htop.1 x hx y hyf hyv hyn
    simpa using this

/-- Witness for C3: two photos with known distinct timestamps, requested count
one: Newest picks the larger timestamp, Oldest the smaller, and a permuted
directory listing yields the same selection. -/
theorem dated_selection_topk_witness :
    (selectPhotos none (fun l n => l.take n) (fun f => if f = "a.jpg" then 10 else 20)
       ["b.jpg", "a.jpg"] ∅ ∅ [] 1 Mode.newest).selected = ["b.jpg"] ∧
    (selectPhotos none (fun l n => l.take n) (fun f => if f = "a.jpg" then 10 else 20)
       ["a.jpg", "b.jpg"] ∅ ∅ [] 1 Mode.newest).selected =
      (selectPhotos none (fun l n => l.take n) (fun f => if f = "a.jpg" then 10 else 20)
       ["b.jpg", "a.jpg"] ∅ ∅ [] 1 Mode.newest).selected ∧
    (selectPhotos none (fun l n => l.take n) (fun f => if f = "a.jpg" then 10 else 20)
       ["b.jpg", "a.jpg"] ∅ ∅ [] 1 Mode.oldest).selected = ["a.jpg"] := by
  refine ⟨by decide, ?_, by decide⟩
  exact (dated_selection_topk (fun f => if f = "a.jpg" then 10 else 20)
    ["b.jpg", "a.jpg"] ["a.jpg", "b.jpg"] ∅ ∅ [] 1 (by decide) (by decide)
    (by decide) (by decide)).1.2.2.2

end FrameTV

namespace FrameTV

/-! ## Claim C5: cancellation of the selection

The claim as stated fails: in Random mode the post-reset reselection
(line 322, `unviewed = list(self.iter_photos(library_path))`) performs no
cancellation check and `random.sample` then returns photos, so a selection
whose first enumeration was cancelled still resets the history and returns a
full sample.  The Newest/Oldest passes (including the post-reset rescan) do
check the flag and return no results. -/

/-- The ranked extraction of an empty scan is empty. -/
theorem heapSelect_nil (b : Bool) (c : ℕ) : heapSelect b c [] = [] := by
  cases b <;> simp [heapSelect, nlargest, nsmallest, List.insertionSort]

/-- A cached binding survives a whole Newest/Oldest selection. -/
theorem datedSelect_cache_mono (cf : Option ℕ) (resolve : String → Int)
    (files : List String) (viewed viewedFile : Finset String)
    (cache : List (String × Int)) (c : ℕ) (b : Bool) (g : String) (v : Int)
    (h : cacheLookup g cache = some v) :
    cacheLookup g (datedSelect cf resolve files viewed viewedFile cache c b).cache = some v := by
  simp only [datedSelect]
  split
  · exact scanAllPairs_cache_mono _ _ _ _ _ _ _ (scanPairs_cache_mono _ _ _ _ _ _ _ _ h)
  · exact scanPairs_cache_mono _ _ _ _ _ _ _ _ h

/-- A Newest/Oldest selection whose shutdown request landed before the first
checkpoint: both scans stop at their first check, the partial (empty) result
still triggers the exhaustion reset, and the selection returns nothing with
the cache untouched. -/
theorem datedSelect_some_zero (resolve : String → Int) (files : List String)
    (viewed viewedFile : Finset String) (cache : List (String × Int)) (c : ℕ) (b : Bool)
    (hc : 1 ≤ c) :
    datedSelect (some 0) resolve files viewed viewedFile cache c b =
      ⟨[], ∅, ∅, cache⟩ := by
  have h1 := scanPairs_some_zero resolve viewed files 0 cache
  have hsel : heapSelect b c (scanPairs (some 0) resolve viewed files 0 cache).pairs = [] := by
    rw [h1.1]; exact heapSelect_nil b c
  have hcond : (heapSelect b c (scanPairs (some 0) resolve viewed files 0 cache).pairs).length
      < c := by
    rw [hsel]; simpa using hc
  have h2 := scanAllPairs_some_zero resolve files
    (scanPairs (some 0) resolve viewed files 0 cache).next
    (scanPairs (some 0) resolve viewed files 0 cache).cache
  simp only [datedSelect, if_pos hcond, SelectOut.mk.injEq]
  exact ⟨by rw [h2.1]; exact heapSelect_nil b c, by trivial, by trivial, by rw [h2.2, h1.2]⟩

/-- Counterexample to C5 as stated: with the cancellation flag already set at
the very first checkpoint, a Random-mode selection does not abort with no
results - the post-reset re-enumeration ignores the flag and the selection
returns a sampled photo. -/
theorem select_photos_cancellation_cx :
    isCancelled (some 0) 0 = true ∧
    (selectPhotos (some 0) (fun l n => l.take n) (fun _ => 0) ["a.jpg"] ∅ ∅ [] 1
        Mode.random).selected = ["a.jpg"] :=
  ⟨by decide, by decide⟩

/-- C5 amended: date-cache entries accumulated before an abort remain cached
under every cancellation pattern and mode; a Newest or Oldest selection whose
cancellation flag was set before the first checkpoint returns no results
(while still resetting the view history, because the empty partial result
looks exhausted); but a Random selection in the same situation does not abort:
it resets the view history and returns a sample of the full directory, whose
re-enumeration performs no cancellation check. -/
theorem select_photos_cancellation_amended (sample : List String → ℕ → List String)
    (resolve : String → Int) (lib : List String) (viewed viewedFile : Finset String)
    (cache : List (String × Int)) (count : ℤ) :
    (∀ cf mode g v, cacheLookup g cache = some v →
        cacheLookup g (selectPhotos cf sample resolve lib viewed viewedFile cache
          count mode).cache = some v) ∧
    ((selectPhotos (some 0) sample resolve lib viewed viewedFile cache count
        Mode.newest).selected = [] ∧
     (selectPhotos (some 0) sample resolve lib viewed viewedFile cache count
        Mode.newest).viewed = ∅ ∧
     (selectPhotos (some 0) sample resolve lib viewed viewedFile cache count
        Mode.newest).cache = cache) ∧
    ((selectPhotos (some 0) sample resolve lib viewed viewedFile cache count
        Mode.oldest).selected = [] ∧
     (selectPhotos (some 0) sample resolve lib viewed viewedFile cache count
        Mode.oldest).viewed = ∅ ∧
     (selectPhotos (some 0) sample resolve lib viewed viewedFile cache count
        Mode.oldest).cache = cache) ∧
    ((selectPhotos (some 0) sample resolve lib viewed viewedFile cache count
        Mode.random).selected =
        sample (iterPhotos lib) (min (clampCount count) (iterPhotos lib).length) ∧
     (selectPhotos (some 0) sample resolve lib viewed viewedFile cache count
        Mode.random).viewed = ∅) := by
  have hzN := datedSelect_some_zero resolve (iterPhotos lib) viewed viewedFile cache
    (clampCount count) true (one_le_clampCount count)
  have hzO := datedSelect_some_zero resolve (iterPhotos lib) viewed viewedFile cache
    (clampCount count) false (one_le_clampCount count)
  have hlu := listUnviewed_some_zero viewed (iterPhotos lib) 0
  have hrand : selectPhotos (some 0) sample resolve lib viewed viewedFile cache count
      Mode.random = ⟨sample (iterPhotos lib) (min (clampCount count) (iterPhotos lib).length),
        ∅, ∅, cache⟩ := by
    have hcond : ((listUnviewed (some 0) viewed (iterPhotos lib) 0).1).length
        < clampCount count := by
      rw [hlu]
      simpa using one_le_clampCount count
    simp only [selectPhotos, if_pos hcond]
  refine ⟨fun cf mode g v h => ?_, ?_, ?_, ?_⟩
  · cases mode with
    | random =>
      have : (selectPhotos cf sample resolve lib viewed viewedFile cache count
          Mode.random).cache = cache := by
        simp only [selectPhotos]
        split <;> rfl
      rw [this]; exact h
    | newest =>
      have heq : selectPhotos cf sample resolve lib viewed viewedFile cache count Mode.newest =
          datedSelect cf resolve (iterPhotos lib) viewed viewedFile cache
            (clampCount count) true := by
        simp only [selectPhotos]
      rw [heq]
      exact datedSelect_cache_mono cf resolve (iterPhotos lib) viewed viewedFile
        cache (clampCount count) true g v h
    | oldest =>
      have heq : selectPhotos cf sample resolve lib viewed viewedFile cache count Mode.oldest =
          datedSelect cf resolve (iterPhotos lib) viewed viewedFile cache
            (clampCount count) false := by
        simp only [selectPhotos]
      rw [heq]
      exact datedSelect_cache_mono cf resolve (iterPhotos lib) viewed viewedFile
        cache (clampCount count) false g v h
  · have : selectPhotos (some 0) sample resolve lib viewed viewedFile cache count
        Mode.newest = ⟨[], ∅, ∅, cache⟩ := by
      simp only [selectPhotos]
      exact hzN
    rw [this]
    exact ⟨rfl, rfl, rfl⟩
  · have : selectPhotos (some 0) sample resolve lib viewed viewedFile cache count
        Mode.oldest = ⟨[], ∅, ∅, cache⟩ := by
      simp only [selectPhotos]
      exact hzO
    rw [this]
    exact ⟨rfl, rfl, rfl⟩
  · rw [hrand]
    exact ⟨rfl, rfl⟩

/-- Witness for C5's amended claim at concrete inputs. -/
theorem select_photos_cancellation_amended_witness :
    cacheLookup "c.jpg" ((selectPhotos (some 0) (fun l n => l.take n) (fun _ => 0)
        ["a.jpg"] ∅ ∅ [("c.jpg", 7)] 1 Mode.newest).cache) = some 7 ∧
    (selectPhotos (some 0) (fun l n => l.take n) (fun _ => 0) ["a.jpg"] ∅ ∅
        [("c.jpg", 7)] 1 Mode.newest).selected = [] ∧
    (selectPhotos (some 0) (fun l n => l.take n) (fun _ => 0) ["a.jpg"] ∅ ∅ [] 1
        Mode.random).selected =
      (iterPhotos ["a.jpg"]).take (min (clampCount 1) (iterPhotos ["a.jpg"]).length) := by
  have h := select_photos_cancellation_amended (fun l n => l.take n) (fun _ => 0)
    ["a.jpg"] ∅ ∅ [("c.jpg", 7)] 1
  have h2 := select_photos_cancellation_amended (fun l n => l.take n) (fun _ => 0)
    ["a.jpg"] ∅ ∅ [] 1
  exact ⟨h.1 (some 0) Mode.newest "c.jpg" 7 (by decide), h.2.1.1, h2.2.2.2.1⟩

end FrameTV
